import Mathlib

/-!
Verification of the bike-rebalancing decision pipeline: a shallow embedding of
the stock simulator, the Pareto-frontier extraction, the visit-planning MILP
constraint system, the vehicle-routing constraint system and the top-level
driver, with theorems settling the behavioural claims about them.

Numpy arrays act componentwise across the batch dimension, so the simulator is
embedded per trajectory (one row of the batch); rationals stand for the float
values, `Option` for Python `None`, and an explicit error type for raised
exceptions.
-/

namespace BikeRebalancing

/-! ## Stock simulation (src/rebalancing/evaluation.py) -/

/-- numpy `sign` of one scalar: 1, -1 or 0. -/
def npSign (v : ℚ) : ℚ := if 0 < v then 1 else if v < 0 then -1 else 0

/-- numpy `clip(v, lo, hi)` of one scalar. -/
def npClip (v lo hi : ℚ) : ℚ := min (max v lo) hi

/-- `stabilize` (evaluation.py lines 13-35), one component of the vectorised
arrays.  Returns the new `(x, sign_ref)` pair.  `y` is the copy of the incoming
value taken before any in-place update; `delta` is computed once against the
incoming value; step 2 tests the sign reference as updated by step 1; step 3
restores the pre-snap value and re-seeds the sign reference on reset positions. -/
def stabilize (x ref signRef : ℚ) (resetMask : Option Bool) (band : ℚ := 3) :
    ℚ × ℚ :=
  let y := x
  let delta := x - ref
  -- 1) entree bande neutre
  let x1 := if |delta| ≤ band ∨ signRef = 0 then ref else x
  let s1 : ℚ := if |delta| ≤ band ∨ signRef = 0 then 0 else signRef
  -- 2) violation de l'invariant
  let x2 := if s1 ≠ 0 ∧ npSign delta ≠ s1 then ref else x1
  let s2 : ℚ := if s1 ≠ 0 ∧ npSign delta ≠ s1 then 0 else s1
  -- 3) reset invariant si regulation
  match resetMask with
  | none => (x2, s2)
  | some r => if r then (y, npSign (y - ref)) else (x2, s2)

/-- Zip three lists, truncating to the shortest. -/
def zip3 {α β γ : Type} : List α → List β → List γ → List (α × β × γ)
  | a :: as, b :: bs, c :: cs => (a, b, c) :: zip3 as bs cs
  | _, _, _ => []

/-- Zip four lists, truncating to the shortest. -/
def zip4 {α β γ δ : Type} :
    List α → List β → List γ → List δ → List (α × β × γ × δ)
  | a :: as, b :: bs, c :: cs, d :: ds => (a, b, c, d) :: zip4 as bs cs ds
  | _, _, _, _ => []

/-- Inner sub-day loop of `_simulate` (evaluation.py lines 61-66) in the
branch where a historical reference is present: each step adds the demand
increment, clips to `[0, cap]`, then stabilises against the step's historical
stock with the step's historical-regulation flag as reset mask.  Input triples
are `(demand, stock_hist, reg_hist)` per sub-step; returns the emitted
trajectory values `cumul[d][1..]` together with the final `(x, sign_ref)`. -/
def simulateHistSteps (cap : ℚ) (x0 s0 : ℚ) :
    List (ℚ × ℚ × Bool) → List ℚ × ℚ × ℚ
  | [] => ([], x0, s0)
  | (dem, h, r) :: rest =>
      let xc := npClip (x0 + dem) 0 cap
      let st := stabilize xc h s0 (some r)
      let out := simulateHistSteps cap st.1 st.2 rest
      (st.1 :: out.1, out.2)

/-- Day loop of `_simulate` (evaluation.py lines 49-67) with a historical
reference: apply the day's candidate regulation, record the feasibility flag
against `[-apply_tol, cap+apply_tol]`, clip, stabilise with reset mask
`(day_reg != 0) or reg_hist[d][0]`, then run the sub-day steps.  Input
quadruples are `(day_reg, demand_row, stock_hist_row, reg_hist_row)` per day;
returns per day `(mask, cumul_row)` with `cumul_row = cumul[d][0..N_step]`
(the `day_link = 1` layout used by the only call site), and the final state. -/
def simulateHistDays (cap applyTol : ℚ) (prev s : ℚ) :
    List (ℚ × List ℚ × List ℚ × List Bool) → List (Bool × List ℚ) × ℚ × ℚ
  | [] => ([], prev, s)
  | (reg, dems, hs, rs) :: rest =>
      let test := prev + reg
      let ok := decide (-applyTol ≤ test ∧ test ≤ cap + applyTol)
      let x0 := npClip test 0 cap
      let reset0 := decide (reg ≠ 0) || rs.headD false
      let st0 := stabilize x0 (hs.headD 0) s (some reset0)
      let inner := simulateHistSteps cap st0.1 st0.2 (zip3 dems hs rs)
      let rec0 := simulateHistDays cap applyTol inner.2.1 inner.2.2 rest
      ((ok, st0.1 :: inner.1) :: rec0.1, rec0.2)

/-- `_simulate` with a historical stock/regulation reference (evaluation.py
lines 37-69, `stock_hist` and `reg_hist` not `None`): the sign reference is
seeded from `sign(start - stock_hist[0][0])` and the day loop runs with
stabilisation. -/
def simulateHist (dayReg : List ℚ) (start cap : ℚ) (demand : List (List ℚ))
    (applyTol : ℚ) (stockHist : List (List ℚ)) (regHist : List (List Bool)) :
    List (Bool × List ℚ) :=
  let s0 := npSign (start - ((stockHist.headD []).headD 0))
  (simulateHistDays cap applyTol start s0 (zip4 dayReg demand stockHist regHist)).1

/-- Inner sub-day loop of `_simulate` without a historical reference: add the
demand increment and clip.  Returns the emitted values and the final stock. -/
def simulateSteps (cap : ℚ) (x0 : ℚ) : List ℚ → List ℚ × ℚ
  | [] => ([], x0)
  | dem :: rest =>
      let x := npClip (x0 + dem) 0 cap
      let out := simulateSteps cap x rest
      (x :: out.1, out.2)

/-- Day loop of `_simulate` without a historical reference. -/
def simulateDays (cap applyTol : ℚ) (prev : ℚ) :
    List (ℚ × List ℚ) → List (Bool × List ℚ)
  | [] => []
  | (reg, dems) :: rest =>
      let test := prev + reg
      let ok := decide (-applyTol ≤ test ∧ test ≤ cap + applyTol)
      let x := npClip test 0 cap
      let out := simulateSteps cap x dems
      (ok, x :: out.1) :: simulateDays cap applyTol out.2 rest

/-- `_simulate` (evaluation.py lines 37-69), specialised to `day_link = 1`
(the only calling mode), one trajectory of the batch.  `hist` bundles the
optional `stock_hist` and `reg_hist` arguments (the code dereferences
`reg_hist` whenever `stock_hist` is present).  Returns, per day, the
feasibility-mask entry and the row `cumul[d][0..N_step]`. -/
def simulate (dayReg : List ℚ) (start cap : ℚ) (demand : List (List ℚ))
    (applyTol : ℚ) (hist : Option (List (List ℚ) × List (List Bool))) :
    List (Bool × List ℚ) :=
  match hist with
  | none => simulateDays cap applyTol start (dayReg.zip demand)
  | some (sh, rh) => simulateHist dayReg start cap demand applyTol sh rh

/-! ### Basic lemmas about clipping and stabilisation -/

theorem npClip_nonneg (v cap : ℚ) (hcap : 0 ≤ cap) : 0 ≤ npClip v 0 cap :=
  le_min (le_max_right _ _) hcap

theorem npClip_le_cap (v cap : ℚ) : npClip v 0 cap ≤ cap :=
  min_le_right _ _

theorem npClip_eq_self (v cap : ℚ) (h0 : 0 ≤ v) (h1 : v ≤ cap) :
    npClip v 0 cap = v := by
  unfold npClip
  rw [max_eq_left h0, min_eq_left h1]

/-- The value returned by `stabilize` is always either the incoming simulated
value or the historical reference. -/
theorem stabilize_fst_eq_or (x ref signRef : ℚ) (resetMask : Option Bool)
    (band : ℚ) :
    (stabilize x ref signRef resetMask band).1 = x ∨
    (stabilize x ref signRef resetMask band).1 = ref := by
  unfold stabilize
  rcases resetMask with _ | r
  · dsimp only
    split_ifs <;> simp
  · dsimp only
    split_ifs <;> simp

/-! ### Claim C4: stabilisation snaps to history inside the tolerance band -/

/-- C4 (amended): at a simulation step that is not flagged as a reset (no
historical regulation event there and, for a day's first sub-step, no candidate
regulation applied that day), if the simulated value deviates from the
historical value by at most the tolerance band then the stabilised output
equals the historical value exactly. -/
theorem c4_stabilize_snaps_inside_band (x ref signRef band : ℚ)
    (resetMask : Option Bool)
    (hreset : resetMask = none ∨ resetMask = some false)
    (hband : |x - ref| ≤ band) :
    (stabilize x ref signRef resetMask band).1 = ref := by
  rcases hreset with h | h <;> subst h <;>
  · unfold stabilize
    dsimp only
    split_ifs <;> simp_all

/-- C4 witness: the amended theorem applied at a concrete step. -/
theorem c4_witness :
    |(5 : ℚ) - 6| ≤ 3 ∧ (stabilize 5 6 1 none 3).1 = 6 :=
  ⟨by norm_num, c4_stabilize_snaps_inside_band 5 6 1 3 none (Or.inl rfl) (by norm_num)⟩

/-- C4 counterexample: a concrete `_simulate` run (one day, zero sub-day
steps, candidate regulation +15, historical stock 24, no historical regulation
event) in which the simulated value 25 deviates from the historical value 24
by 1 ≤ band = 3, yet the output trajectory entry is 25, not 24: the reset mask
raised by the candidate regulation restores the pre-snap value. -/
theorem c4_counterexample :
    simulate [15] 10 30 [[]] 4 (some ([[24]], [[false]])) = [(true, [25])] ∧
    |(25 : ℚ) - 24| ≤ 3 ∧ (25 : ℚ) ≠ 24 := by
  refine ⟨?_, by norm_num, by norm_num⟩
  norm_num [simulate, simulateHist, simulateHistDays, simulateHistSteps,
    stabilize, npClip, npSign, zip3, zip4]

/-! ### Claim C5: trajectory range invariant -/

theorem zip3_mem_snd {α β γ : Type} :
    ∀ (as : List α) (bs : List β) (cs : List γ) (t : α × β × γ),
      t ∈ zip3 as bs cs → t.2.1 ∈ bs := by
  intro as
  induction as with
  | nil => intro bs cs t ht; simp [zip3] at ht
  | cons a as ih =>
    intro bs cs t ht
    match bs, cs with
    | [], _ => simp [zip3] at ht
    | b :: bs, [] => simp [zip3] at ht
    | b :: bs, c :: cs =>
      simp only [zip3] at ht
      rcases List.mem_cons.1 ht with h | h
      · subst h; exact List.mem_cons_self _ _
      · exact List.mem_cons_of_mem _ (ih bs cs t h)

theorem zip4_mem_third {α β γ δ : Type} :
    ∀ (as : List α) (bs : List β) (cs : List γ) (ds : List δ)
      (t : α × β × γ × δ), t ∈ zip4 as bs cs ds → t.2.2.1 ∈ cs := by
  intro as
  induction as with
  | nil => intro bs cs ds t ht; simp [zip4] at ht
  | cons a as ih =>
    intro bs cs ds t ht
    match bs, cs, ds with
    | [], _, _ => simp [zip4] at ht
    | b :: bs, [], _ => simp [zip4] at ht
    | b :: bs, c :: cs, [] => simp [zip4] at ht
    | b :: bs, c :: cs, d :: ds =>
      simp only [zip4] at ht
      rcases List.mem_cons.1 ht with h | h
      · subst h; exact List.mem_cons_self _ _
      · exact List.mem_cons_of_mem _ (ih bs cs ds t h)

theorem simulateHistSteps_mem_range (cap : ℚ) (hcap : 0 ≤ cap) :
    ∀ (steps : List (ℚ × ℚ × Bool)) (x0 s0 : ℚ),
      (∀ t ∈ steps, 0 ≤ t.2.1 ∧ t.2.1 ≤ cap) →
      ∀ v ∈ (simulateHistSteps cap x0 s0 steps).1, 0 ≤ v ∧ v ≤ cap := by
  intro steps
  induction steps with
  | nil => intro x0 s0 _ v hv; simp [simulateHistSteps] at hv
  | cons t rest ih =>
    obtain ⟨dem, h, r⟩ := t
    intro x0 s0 hsteps v hv
    simp only [simulateHistSteps] at hv
    rcases List.mem_cons.1 hv with hv | hv
    · subst hv
      rcases stabilize_fst_eq_or (npClip (x0 + dem) 0 cap) h s0 (some r) 3 with
        he | he <;> rw [he]
      · exact ⟨npClip_nonneg _ _ hcap, npClip_le_cap _ _⟩
      · exact hsteps (dem, h, r) (List.mem_cons_self _ _)
    · exact ih _ _ (fun u hu => hsteps u (List.mem_cons_of_mem _ hu)) v hv

theorem headD_mem_range (cap : ℚ) (hcap : 0 ≤ cap) (hs : List ℚ)
    (hrow : ∀ v ∈ hs, 0 ≤ v ∧ v ≤ cap) : 0 ≤ hs.headD 0 ∧ hs.headD 0 ≤ cap := by
  cases hs with
  | nil => exact ⟨le_refl 0, hcap⟩
  | cons h rest => exact hrow h (List.mem_cons_self _ _)

theorem simulateHistDays_mem_range (cap applyTol : ℚ) (hcap : 0 ≤ cap) :
    ∀ (days : List (ℚ × List ℚ × List ℚ × List Bool)) (prev s : ℚ),
      (∀ q ∈ days, ∀ v ∈ q.2.2.1, 0 ≤ v ∧ v ≤ cap) →
      ∀ p ∈ (simulateHistDays cap applyTol prev s days).1, ∀ v ∈ p.2,
        0 ≤ v ∧ v ≤ cap := by
  intro days
  induction days with
  | nil => intro prev s _ p hp; simp [simulateHistDays] at hp
  | cons q rest ih =>
    obtain ⟨reg, dems, hs, rs⟩ := q
    intro prev s hdays p hp
    have hrow : ∀ v ∈ hs, 0 ≤ v ∧ v ≤ cap :=
      hdays (reg, dems, hs, rs) (List.mem_cons_self _ _)
    simp only [simulateHistDays] at hp
    rcases List.mem_cons.1 hp with hp | hp
    · subst hp
      intro v hv
      rcases List.mem_cons.1 hv with hv | hv
      · subst hv
        rcases stabilize_fst_eq_or (npClip (prev + reg) 0 cap) (hs.headD 0) s
            (some (decide (reg ≠ 0) || rs.headD false)) 3 with he | he <;> rw [he]
        · exact ⟨npClip_nonneg _ _ hcap, npClip_le_cap _ _⟩
        · exact headD_mem_range cap hcap hs hrow
      · refine simulateHistSteps_mem_range cap hcap (zip3 dems hs rs) _ _ ?_ v hv
        intro u hu
        exact hrow u.2.1 (zip3_mem_snd dems hs rs u hu)
    · exact ih _ _ (fun u hu => hdays u (List.mem_cons_of_mem _ hu)) p hp

theorem simulateSteps_mem_range (cap : ℚ) (hcap : 0 ≤ cap) :
    ∀ (dems : List ℚ) (x0 : ℚ),
      ∀ v ∈ (simulateSteps cap x0 dems).1, 0 ≤ v ∧ v ≤ cap := by
  intro dems
  induction dems with
  | nil => intro x0 v hv; simp [simulateSteps] at hv
  | cons dem rest ih =>
    intro x0 v hv
    simp only [simulateSteps] at hv
    rcases List.mem_cons.1 hv with hv | hv
    · subst hv; exact ⟨npClip_nonneg _ _ hcap, npClip_le_cap _ _⟩
    · exact ih _ v hv

theorem simulateDays_mem_range (cap applyTol : ℚ) (hcap : 0 ≤ cap) :
    ∀ (days : List (ℚ × List ℚ)) (prev : ℚ),
      ∀ p ∈ simulateDays cap applyTol prev days, ∀ v ∈ p.2,
        0 ≤ v ∧ v ≤ cap := by
  intro days
  induction days with
  | nil => intro prev p hp; simp [simulateDays] at hp
  | cons q rest ih =>
    obtain ⟨reg, dems⟩ := q
    intro prev p hp
    simp only [simulateDays] at hp
    rcases List.mem_cons.1 hp with hp | hp
    · subst hp
      intro v hv
      rcases List.mem_cons.1 hv with hv | hv
      · subst hv; exact ⟨npClip_nonneg _ _ hcap, npClip_le_cap _ _⟩
      · exact simulateSteps_mem_range cap hcap dems _ v hv
    · exact ih _ p hp

/-- C5 (amended): for nonnegative capacity, the full per-step trajectory
returned by `_simulate` lies within `[0, capacity]` at every day and step,
provided every value of the historical stock reference also lies within
`[0, capacity]` (vacuously true when no historical reference is passed).
Without that proviso the stabilisation snap can copy an out-of-range
historical value into the trajectory (see the counterexample). -/
theorem c5_simulate_range (dayReg : List ℚ) (start cap : ℚ)
    (demand : List (List ℚ)) (applyTol : ℚ)
    (hist : Option (List (List ℚ) × List (List Bool))) (hcap : 0 ≤ cap)
    (hhist : ∀ sh rh, hist = some (sh, rh) → ∀ row ∈ sh, ∀ v ∈ row,
      0 ≤ v ∧ v ≤ cap) :
    ∀ p ∈ simulate dayReg start cap demand applyTol hist, ∀ v ∈ p.2,
      0 ≤ v ∧ v ≤ cap := by
  match hist with
  | none =>
    intro p hp
    exact simulateDays_mem_range cap applyTol hcap _ start p hp
  | some (sh, rh) =>
    intro p hp
    refine simulateHistDays_mem_range cap applyTol hcap _ start _ ?_ p hp
    intro q hq
    exact hhist sh rh rfl q.2.2.1 (zip4_mem_third dayReg demand sh rh q hq)

/-- C5 witness: the amended theorem applied to a concrete run with a
historical reference whose values stay within capacity. -/
theorem c5_witness :
    (0 : ℚ) ≤ 30 ∧
    ∀ p ∈ simulate [0] 10 30 [[2]] 4 (some ([[20]], [[false]])), ∀ v ∈ p.2,
      0 ≤ v ∧ v ≤ 30 :=
  ⟨by norm_num,
   c5_simulate_range [0] 10 30 [[2]] 4 (some ([[20]], [[false]])) (by norm_num)
     (by intro sh rh heq row hrow v hv
         simp only [Option.some.injEq, Prod.mk.injEq] at heq
         obtain ⟨h1, h2⟩ := heq
         subst h1
         simp only [List.mem_singleton] at hrow
         subst hrow
         simp only [List.mem_singleton] at hv
         subst hv
         norm_num)⟩

/-- C5 counterexample: a concrete `_simulate` run with nonnegative capacity 30
whose historical reference holds the value 32; the stabilisation snap copies 32
into the trajectory, so the output leaves `[0, capacity]`. -/
theorem c5_counterexample :
    simulate [0] 30 30 [[]] 4 (some ([[32]], [[false]])) = [(true, [32])] ∧
    (0 : ℚ) ≤ 30 ∧ ¬ ((32 : ℚ) ≤ 30) := by
  refine ⟨?_, by norm_num, by norm_num⟩
  norm_num [simulate, simulateHist, simulateHistDays, simulateHistSteps,
    stabilize, npClip, npSign, zip3, zip4]

/-! ### Claim C6: zero demand and zero regulation fix the initial stock -/

theorem simulateSteps_replicate_zero (cap start : ℚ) (h0 : 0 ≤ start)
    (h1 : start ≤ cap) :
    ∀ k, simulateSteps cap start (List.replicate k 0) =
      (List.replicate k start, start) := by
  intro k
  induction k with
  | zero => simp [simulateSteps]
  | succ k ih =>
    simp only [List.replicate_succ, simulateSteps, add_zero,
      npClip_eq_self start cap h0 h1, ih]

/-- C6: running `_simulate` (no historical reference, as in the default
`stock_hist = None`) with an all-zero demand tensor and the all-zero
regulation pattern keeps the trajectory constantly equal to the initial stock
at every day and step, for every initial stock within `[0, capacity]`. -/
theorem c6_fixed_point (nDay nStep : ℕ) (start cap applyTol : ℚ)
    (h0 : 0 ≤ start) (h1 : start ≤ cap) :
    ∀ p ∈ simulate (List.replicate nDay 0) start cap
        (List.replicate nDay (List.replicate nStep 0)) applyTol none,
      ∀ v ∈ p.2, v = start := by
  simp only [simulate]
  induction nDay with
  | zero => simp [simulateDays]
  | succ n ih =>
    simp only [List.replicate_succ, List.zip_cons_cons, simulateDays, add_zero,
      npClip_eq_self start cap h0 h1, simulateSteps_replicate_zero cap start h0 h1]
    intro p hp
    rcases List.mem_cons.1 hp with hp | hp
    · subst hp
      intro v hv
      rcases List.mem_cons.1 hv with hv | hv
      · exact hv
      · exact List.eq_of_mem_replicate hv
    · exact ih p hp

/-- C6 witness: the fixed-point theorem applied at a concrete run. -/
theorem c6_witness :
    (0 : ℚ) ≤ 5 ∧ (5 : ℚ) ≤ 10 ∧
    ∀ p ∈ simulate (List.replicate 2 0) 5 10
        (List.replicate 2 (List.replicate 3 0)) 4 none,
      ∀ v ∈ p.2, v = 5 :=
  ⟨by norm_num, by norm_num, c6_fixed_point 2 3 5 10 4 (by norm_num) (by norm_num)⟩

/-! ## Pattern parsing (src/rebalancing/frontiers.py and optimization.py) -/

/-- Python `int(c)` applied to a single character: its digit value, and a
`ValueError` (modelled `none`) for a non-digit. -/
def pyIntOfChar (c : Char) : Option ℕ :=
  if c.isDigit then some (c.toNat - Char.toNat (Char.ofNat 48)) else none

/-- Python `s.strip("[]")`: drop leading and trailing characters belonging to
the set `[` `]`. -/
def pyStripBrackets (s : String) : List Char :=
  ((s.toList.dropWhile fun c => c == Char.ofNat 91 || c == Char.ofNat 93).reverse.dropWhile
    (fun c => c == Char.ofNat 91 || c == Char.ofNat 93)).reverse

/-- Python `map(int, chars)` forced by `tuple`/`list`, with the `ValueError`
of the first non-digit character propagated. -/
def mapPyInt : List Char → Option (List ℕ)
  | [] => some []
  | c :: cs =>
    match pyIntOfChar c, mapPyInt cs with
    | some v, some vs => some (v :: vs)
    | _, _ => none

/-- `parse_bits` (frontiers.py lines 13-15): convert a pattern string such as
`"[0101]"` to its sequence of digit values, raising on non-digit characters. -/
def parse_bits (s : String) : Option (List ℕ) := mapPyInt (pyStripBrackets s)

/-- One pattern conversion inside `parse_frontiers_logic` (optimization.py
lines 50-54): `list(map(int, x.strip("[]")))[:limit]`. -/
def parseFrontierStrat (limit : ℕ) (x : String) : Option (List ℕ) :=
  (parse_bits x).map fun l => l.take limit

/-- The list comprehension of `parse_frontiers_logic` over the cell's pattern
strings, with exception propagation. -/
def parseFrontierCell (limit : ℕ) : List String → Option (List (List ℕ))
  | [] => some []
  | x :: xs =>
    match parseFrontierStrat limit x, parseFrontierCell limit xs with
    | some l, some ls => some (l :: ls)
    | _, _ => none

/-- `parse_frontiers_logic` (optimization.py lines 50-54) applied to an
already `ast.literal_eval`-decoded list of pattern strings: each pattern is
parsed and cut to `limit = 2` when `mini_sample` else `7`. -/
def parse_frontiers_logic (miniSample : Bool) (raw : List String) :
    Option (List (List ℕ)) :=
  parseFrontierCell (if miniSample then 2 else 7) raw

/-! ### Claim C3: parse failures, truncation and padding -/

theorem mapPyInt_length :
    ∀ (cs : List Char) (l : List ℕ), mapPyInt cs = some l → l.length = cs.length := by
  intro cs
  induction cs with
  | nil => intro l hl; simp_all [mapPyInt]
  | cons c cs ih =>
    intro l hl
    simp only [mapPyInt] at hl
    match hv : pyIntOfChar c, hvs : mapPyInt cs with
    | some v, some vs =>
      rw [hv, hvs] at hl
      simp only [Option.some.injEq] at hl
      subst hl
      simp [ih vs hvs]
    | some v, none => rw [hv, hvs] at hl; simp at hl
    | none, _ => rw [hv] at hl; simp at hl

theorem mapPyInt_digits :
    ∀ (cs : List Char) (l : List ℕ), mapPyInt cs = some l → ∀ c ∈ cs, c.isDigit := by
  intro cs
  induction cs with
  | nil => intro l _ c hc; simp at hc
  | cons c cs ih =>
    intro l hl d hd
    simp only [mapPyInt] at hl
    match hv : pyIntOfChar c, hvs : mapPyInt cs with
    | some v, some vs =>
      rcases List.mem_cons.1 hd with hd | hd
      · subst hd
        by_contra hdig
        simp [pyIntOfChar, hdig] at hv
      · exact ih vs hvs d hd
    | some v, none => rw [hv, hvs] at hl; simp at hl
    | none, _ => rw [hv] at hl; simp at hl

theorem parseFrontierCell_take :
    ∀ (limit : ℕ) (raw : List String) (out : List (List ℕ)),
      parseFrontierCell limit raw = some out → ∀ pat ∈ out, pat.length ≤ limit := by
  intro limit raw
  induction raw with
  | nil => intro out h pat hp; simp_all [parseFrontierCell]
  | cons x xs ih =>
    intro out h pat hp
    simp only [parseFrontierCell] at h
    match hv : parseFrontierStrat limit x, hvs : parseFrontierCell limit xs with
    | some l, some ls =>
      rw [hv, hvs] at h
      simp only [Option.some.injEq] at h
      subst h
      rcases List.mem_cons.1 hp with hp | hp
      · subst hp
        simp only [parseFrontierStrat, Option.map_eq_some'] at hv
        obtain ⟨l0, _, hl0⟩ := hv
        rw [← hl0]
        exact le_trans (List.length_take_le _ _) (by simp)
      · exact ih ls hvs pat hp
    | some l, none => rw [hv, hvs] at h; simp at h
    | none, _ => rw [hv] at h; simp at h

/-- C3 (amended): a non-digit character in a pattern string makes `parse_bits`
raise a parse error, and `parse_bits` itself never truncates or pads (its
output has exactly one entry per stripped input character); however, digit
characters other than 0 and 1 are accepted without error, no length check is
performed, and `parse_frontiers_logic` silently cuts every parsed pattern to
at most 7 entries (2 in mini-sample mode) --- see the counterexample. -/
theorem c3_parse_amended :
    (∀ (s : String) (l : List ℕ), parse_bits s = some l →
      l.length = (pyStripBrackets s).length) ∧
    (∀ s : String, (∃ c ∈ pyStripBrackets s, ¬ c.isDigit) → parse_bits s = none) ∧
    (∀ (mini : Bool) (raw : List String) (out : List (List ℕ)),
      parse_frontiers_logic mini raw = some out →
      ∀ pat ∈ out, pat.length ≤ if mini then 2 else 7) := by
  refine ⟨fun s l hl => mapPyInt_length _ l hl, ?_, ?_⟩
  · intro s ⟨c, hc, hdig⟩
    by_contra hne
    obtain ⟨l, hl⟩ := Option.ne_none_iff_exists'.1 hne
    exact hdig (mapPyInt_digits _ l hl c hc)
  · intro mini raw out h pat hp
    exact parseFrontierCell_take _ raw out h pat hp

/-- C3 witness: the amended theorem applied at concrete strings. -/
theorem c3_witness :
    ([0, 1] : List ℕ).length = (pyStripBrackets "[01]").length ∧
    parse_bits "[0a1]" = none ∧
    ∀ pat ∈ [([1, 1] : List ℕ)], pat.length ≤ if true then 2 else 7 :=
  ⟨c3_parse_amended.1 "[01]" [0, 1] (by decide),
   c3_parse_amended.2.1 "[0a1]" ⟨Char.ofNat 97, by decide, by decide⟩,
   c3_parse_amended.2.2 true ["[1111111]"] [[1, 1]] (by decide)⟩

/-- C3 counterexample: in mini-sample mode `parse_frontiers_logic` silently
truncates a 7-bit pattern to 2 entries, and `parse_bits` accepts the
non-binary digit 2 without a parse error. -/
theorem c3_counterexample :
    parse_frontiers_logic true ["[1111111]"] = some [[1, 1]] ∧
    (pyStripBrackets "[1111111]").length = 7 ∧
    ([1, 1] : List ℕ).length ≠ 7 ∧
    parse_bits "[21]" = some [2, 1] := by decide

/-! ## Pareto frontiers (src/rebalancing/frontiers.py lines 17-57) -/

/-- The bit vector denoted by a pattern string inside `build_partial_orders`
(frontiers.py line 22), where every listed pattern parses. -/
def bitsOf (s : String) : List ℕ := (parse_bits s).getD []

/-- `all(x <= y for x, y in zip(bt, b))` (frontiers.py line 32): componentwise
≤, truncating to the shorter pattern as Python `zip` does. -/
def bitsLe (bt b : List ℕ) : Bool := (bt.zip b).all fun p => decide (p.1 ≤ p.2)

/-- `all(x >= y for x, y in zip(bt, b))` (frontiers.py line 35). -/
def bitsGe (bt b : List ℕ) : Bool := (bt.zip b).all fun p => decide (p.2 ≤ p.1)

/-- `INF[s]` of `build_partial_orders` (frontiers.py lines 26-37): the other
patterns whose bits are componentwise ≤ those of `s`. -/
def infSet (strats : List String) (s : String) : List String :=
  strats.filter fun t => (t != s) && bitsLe (bitsOf t) (bitsOf s)

/-- `SUP[s]` of `build_partial_orders`: the other patterns whose bits are
componentwise ≥ those of `s`. -/
def supSet (strats : List String) (s : String) : List String :=
  strats.filter fun t => (t != s) && bitsGe (bitsOf t) (bitsOf s)

/-- `frontiere_bas` of `compute_frontiers_group` (frontiers.py line 50): the
good patterns with no good pattern below them (`not (INF[s] & goods)`). -/
def frontiere_bas (strats goods : List String) : List String :=
  goods.filter fun s => (infSet strats s).all fun t => !(goods.contains t)

/-- `frontiere_haut` of `compute_frontiers_group` (frontiers.py line 52): the
good patterns with no good pattern above them. -/
def frontiere_haut (strats goods : List String) : List String :=
  goods.filter fun s => (supSet strats s).all fun t => !(goods.contains t)

/-! ### Claim C7: the frontier sets are antichains -/

/-- C7: for a good-pattern group whose patterns all occur in the precomputed
partial order, the frontier-low list contains no two distinct patterns with
one componentwise below the other, and likewise the frontier-high list: both
are antichains of the bitwise dominance order. -/
theorem c7_frontiers_antichain (strats goods : List String)
    (hsub : ∀ t ∈ goods, t ∈ strats) :
    (∀ a ∈ frontiere_bas strats goods, ∀ b ∈ frontiere_bas strats goods,
      a ≠ b → bitsLe (bitsOf a) (bitsOf b) = false) ∧
    (∀ a ∈ frontiere_haut strats goods, ∀ b ∈ frontiere_haut strats goods,
      a ≠ b → bitsGe (bitsOf a) (bitsOf b) = false) := by
  constructor
  · intro a ha b hb hne
    by_contra hcon
    rw [Bool.not_eq_false] at hcon
    simp only [frontiere_bas, List.mem_filter, List.all_eq_true] at ha hb
    obtain ⟨hag, _⟩ := ha
    obtain ⟨hbg, hball⟩ := hb
    have hmem : a ∈ infSet strats b := by
      simp only [infSet, List.mem_filter, Bool.and_eq_true, bne_iff_ne]
      exact ⟨hsub a hag, hne, hcon⟩
    have hng := hball a hmem
    rw [Bool.not_eq_true'] at hng
    exact (by simpa using hng : a ∉ goods) hag
  · intro a ha b hb hne
    by_contra hcon
    rw [Bool.not_eq_false] at hcon
    simp only [frontiere_haut, List.mem_filter, List.all_eq_true] at ha hb
    obtain ⟨hag, _⟩ := ha
    obtain ⟨hbg, hball⟩ := hb
    have hmem : a ∈ supSet strats b := by
      simp only [supSet, List.mem_filter, Bool.and_eq_true, bne_iff_ne]
      exact ⟨hsub a hag, hne, hcon⟩
    have hng := hball a hmem
    rw [Bool.not_eq_true'] at hng
    exact (by simpa using hng : a ∉ goods) hag

/-- C7 witness: the antichain theorem applied to a concrete good-pattern
group. -/
theorem c7_witness :
    (∀ a ∈ frontiere_bas ["[10]", "[11]", "[01]"] ["[10]", "[11]", "[01]"],
      ∀ b ∈ frontiere_bas ["[10]", "[11]", "[01]"] ["[10]", "[11]", "[01]"],
      a ≠ b → bitsLe (bitsOf a) (bitsOf b) = false) ∧
    (∀ a ∈ frontiere_haut ["[10]", "[11]", "[01]"] ["[10]", "[11]", "[01]"],
      ∀ b ∈ frontiere_haut ["[10]", "[11]", "[01]"] ["[10]", "[11]", "[01]"],
      a ≠ b → bitsGe (bitsOf a) (bitsOf b) = false) :=
  c7_frontiers_antichain ["[10]", "[11]", "[01]"] ["[10]", "[11]", "[01]"]
    (by decide)

/-! ## Visit planning (src/rebalancing/optim/planvisit.py) -/

/-- The per-station slice of a solved `Weekplan` model for one sign: the
values taken by the decision variables of `_build_variables` (planvisit.py
lines 49-70) together with the station's frontier-pattern data.  `down` holds
the frontier-low patterns (`strat_list["down"]`), `up` the frontier-high
patterns; `dinj n` is the injection variable of day `n`, `activeDown k` /
`activeUp k` the activation variable of pattern `k`. -/
structure StationSol where
  nDays : ℕ
  down : List (List ℕ)
  up : List (List ℕ)
  dinj : ℕ → ℚ
  score : ℚ
  activeDown : ℕ → ℚ
  activeUp : ℕ → ℚ

/-- Variable bounds of `_build_variables` and the per-station constraints of
`_build_constraints` (planvisit.py lines 72-117): `dinj` is a `GRB.BINARY`
variable (the default `build_obj = True` mode), `score` and the activations
are continuous in `[0, 1]`; `dinj[s,n] >= strat_inj[n]*active_down`,
`dinj[s,n] <= strat_inj[n] + (1 - active_up)`, and the success score is
bounded by both activation sums. -/
def weekplanSatisfies (sol : StationSol) : Prop :=
  (∀ n < sol.nDays, sol.dinj n = 0 ∨ sol.dinj n = 1) ∧
  (0 ≤ sol.score ∧ sol.score ≤ 1) ∧
  (∀ k < sol.down.length, 0 ≤ sol.activeDown k ∧ sol.activeDown k ≤ 1) ∧
  (∀ k < sol.up.length, 0 ≤ sol.activeUp k ∧ sol.activeUp k ≤ 1) ∧
  (∀ k, (hk : k < sol.down.length) → ∀ n < sol.nDays,
    ((sol.down.get ⟨k, hk⟩).getD n 0 : ℚ) * sol.activeDown k ≤ sol.dinj n) ∧
  (∀ k, (hk : k < sol.up.length) → ∀ n < sol.nDays,
    sol.dinj n ≤ ((sol.up.get ⟨k, hk⟩).getD n 0 : ℚ) + (1 - sol.activeUp k)) ∧
  sol.score ≤ (Finset.range sol.up.length).sum (fun k => sol.activeUp k) ∧
  sol.score ≤ (Finset.range sol.down.length).sum (fun k => sol.activeDown k)

/-- The chosen injection plan written out by `to_csv` (planvisit.py line 171):
`int(val > threshold)` with the default threshold 0.5. -/
def chosenBit (sol : StationSol) (n : ℕ) : ℕ :=
  if sol.dinj n > 1 / 2 then 1 else 0

/-- A positive entry exists below any sum that reaches 1. -/
theorem exists_pos_of_one_le_sum (K : ℕ) (a : ℕ → ℚ)
    (hsum : (1 : ℚ) ≤ (Finset.range K).sum a) : ∃ k < K, 0 < a k := by
  by_contra hcon
  push_neg at hcon
  have hs : (Finset.range K).sum a ≤ 0 :=
    Finset.sum_nonpos fun k hk => hcon k (Finset.mem_range.1 hk)
  linarith

/-! ### Claim C1: a full success score brackets the chosen plan -/

/-- C1: in any solution of the `Weekplan` constraint system whose frontier-low
patterns are binary, a station with success score 1 has a chosen plan (the
0.5-thresholded `dinj`) that pointwise dominates at least one frontier-low
pattern and is pointwise dominated by at least one frontier-high pattern. -/
theorem c1_success_brackets_plan (sol : StationSol)
    (hsat : weekplanSatisfies sol)
    (hbits : ∀ p ∈ sol.down, ∀ b ∈ p, b ≤ 1)
    (hscore : sol.score = 1) :
    (∃ p ∈ sol.down, ∀ n < sol.nDays, p.getD n 0 ≤ chosenBit sol n) ∧
    (∃ q ∈ sol.up, ∀ n < sol.nDays, chosenBit sol n ≤ q.getD n 0) := by
  obtain ⟨hbin, hsc, had, hau, hdn, hup, hsu, hsd⟩ := hsat
  constructor
  · obtain ⟨k, hk, hpos⟩ :=
      exists_pos_of_one_le_sum sol.down.length sol.activeDown (hscore ▸ hsd)
    refine ⟨sol.down.get ⟨k, hk⟩, List.get_mem _ _ _, ?_⟩
    intro n hn
    set b := (sol.down.get ⟨k, hk⟩).getD n 0 with hb
    have hble : b ≤ 1 := by
      rw [hb, List.getD_eq_getElem?_getD]
      rcases hg : (sol.down.get ⟨k, hk⟩)[n]? with _ | v
      · simp
      · simp only [Option.getD_some]
        exact hbits _ (List.get_mem _ _ _) _ (List.getElem?_mem hg)
    rcases Nat.le_one_iff_eq_zero_or_eq_one.1 hble with hb0 | hb1
    · simp [hb0]
    · have hcons := hdn k hk n hn
      rw [← hb, hb1] at hcons
      push_cast at hcons
      rw [one_mul] at hcons
      rcases hbin n hn with hd0 | hd1
      · rw [hd0] at hcons; linarith
      · simp [chosenBit, hd1, hb1]
        norm_num
  · obtain ⟨k, hk, hpos⟩ :=
      exists_pos_of_one_le_sum sol.up.length sol.activeUp (hscore ▸ hsu)
    refine ⟨sol.up.get ⟨k, hk⟩, List.get_mem _ _ _, ?_⟩
    intro n hn
    rcases hbin n hn with hd0 | hd1
    · simp [chosenBit, hd0]
      norm_num
    · have hcons := hup k hk n hn
      rw [hd1] at hcons
      have hq : (0 : ℚ) < ((sol.up.get ⟨k, hk⟩).getD n 0 : ℚ) := by linarith
      have hq1 : 1 ≤ (sol.up.get ⟨k, hk⟩).getD n 0 := by exact_mod_cast hq
      have : chosenBit sol n = 1 := by simp [chosenBit, hd1]; norm_num
      rw [this]
      exact hq1

/-- A concrete one-day solved station used to witness C1. -/
def c1Station : StationSol where
  nDays := 1
  down := [[1]]
  up := [[1]]
  dinj := fun _ => 1
  score := 1
  activeDown := fun _ => 1
  activeUp := fun _ => 1

/-- C1 witness: the theorem applied to a concrete satisfying solution. -/
theorem c1_witness :
    (∃ p ∈ c1Station.down, ∀ n < c1Station.nDays,
      p.getD n 0 ≤ chosenBit c1Station n) ∧
    (∃ q ∈ c1Station.up, ∀ n < c1Station.nDays,
      chosenBit c1Station n ≤ q.getD n 0) :=
  c1_success_brackets_plan c1Station
    (by
      refine ⟨?_, by norm_num [c1Station], ?_, ?_, ?_, ?_, ?_, ?_⟩ <;>
        simp [c1Station, weekplanSatisfies])
    (by intro p hp b hb; simp [c1Station] at hp; simp [hp] at hb; simp [hb])
    rfl

/-! ## Weekplan.to_csv and Python name resolution (planvisit.py) -/

/-- Result of running a piece of Python code: a value, or a raised exception
identified by its class name. -/
inductive PyResult (α : Type) where
  | ok (a : α)
  | exn (className : String)
deriving DecidableEq

/-- The global names bound at the top level of module
`src/rebalancing/optim/planvisit.py` (lines 1-5): `import numpy as np`,
`import gurobipy as gp`, `from gurobipy import GRB`, and the class
`Weekplan`.  No `pandas` import exists in this module. -/
def planvisitGlobals : List String := ["np", "gp", "GRB", "Weekplan"]

/-- Python resolution of a global name inside a function body: looked up in
the globals of the module where the function is defined; an unbound name
raises `NameError`.  `Weekplan.to_csv` is defined in planvisit.py, and
`TruckRoutes` inherits it unchanged, so both resolve against
`planvisitGlobals`. -/
def resolveGlobal (moduleGlobals : List String) (name : String) :
    PyResult String :=
  if moduleGlobals.contains name then .ok name else .exn "NameError"

/-- One output row of `Weekplan.to_csv` (planvisit.py lines 164-181): the
strategy is the 0.5-thresholded `dinj` vector and the success flag the
thresholded score. -/
structure CsvRow where
  station : ℕ
  sign : ℤ
  strategie : List ℕ
  succes : Bool
deriving DecidableEq

/-- The row built for one station (planvisit.py lines 164-181). -/
def csvRowOf (threshold : ℚ) (sign : ℤ) (stationId : ℕ) (score : ℚ)
    (dinjs : List ℚ) : CsvRow where
  station := stationId
  sign := sign
  strategie := dinjs.map fun v => if v > threshold then 1 else 0
  succes := decide (score > threshold)

/-- `Weekplan.to_csv` (planvisit.py lines 155-185): build the rows for the
`vide` (sign 15) and `plein` (sign -15) directions from the solved variable
values, then evaluate `pd.DataFrame(rows).to_csv(filename)`; the name `pd` is
resolved in the defining module's globals. Returns the rows that would be
written on success. -/
def to_csv (vide plein : List (ℕ × ℚ × List ℚ)) (threshold : ℚ := 1 / 2) :
    PyResult (List CsvRow) :=
  let rows :=
    (vide.map fun g => csvRowOf threshold 15 g.1 g.2.1 g.2.2) ++
    (plein.map fun g => csvRowOf threshold (-15) g.1 g.2.1 g.2.2)
  match resolveGlobal planvisitGlobals "pd" with
  | .ok _ => .ok rows
  | .exn e => .exn e

/-! ### Claim C2: to_csv always raises NameError -/

/-- C2: for every solved `Weekplan` or `TruckRoutes` instance (any station
data of either sign) and any threshold, `to_csv` raises `NameError` --- the
name `pd` is unbound in planvisit.py, the module where `to_csv` is defined
--- so the final route/visit CSV artifact is never produced by this
operation. -/
theorem c2_to_csv_name_error (vide plein : List (ℕ × ℚ × List ℚ))
    (threshold : ℚ) :
    to_csv vide plein threshold = .exn "NameError" ∧
    ∀ rows, to_csv vide plein threshold ≠ .ok rows := by
  constructor
  · rfl
  · intro rows h
    simp [to_csv, resolveGlobal, planvisitGlobals] at h

/-! ## Truck routing (src/rebalancing/optim/planrout.py) -/

/-- The flow-conservation and visit constraints of
`TruckRoutes._build_r_constraints` (planrout.py lines 160-176), stated on the
values a solution assigns to the arc variables `x[i,j,n]` (with non-candidate
arcs fixed at the constant 0, as `_build_r_variables` does) and to the
per-node per-day requirement `din[i,n]`: for every day and every node, the
sum of outgoing arcs equals the sum of incoming arcs and equals `din[i,n]`. -/
def routingConstraintsHold (nodes days : List ℕ)
    (x : ℕ → ℕ → ℕ → ℚ) (din : ℕ → ℕ → ℚ) : Prop :=
  ∀ n ∈ days, ∀ i ∈ nodes,
    ((nodes.map fun j => x i j n).sum = (nodes.map fun j => x j i n).sum) ∧
    ((nodes.map fun j => x i j n).sum = din i n)

/-- The number of selected arcs (value 1) in a 0/1-valued arc family. -/
def selectedCount (nodes : List ℕ) (f : ℕ → ℚ) : ℕ :=
  (nodes.filter fun j => decide (f j = 1)).length

theorem sum_eq_selectedCount (nodes : List ℕ) (f : ℕ → ℚ)
    (hbin : ∀ j ∈ nodes, f j = 0 ∨ f j = 1) :
    (nodes.map f).sum = (selectedCount nodes f : ℚ) := by
  induction nodes with
  | nil => simp [selectedCount]
  | cons j rest ih =>
    have hrest := ih fun u hu => hbin u (List.mem_cons_of_mem _ hu)
    rcases hbin j (List.mem_cons_self _ _) with h0 | h1
    · rw [List.map_cons, List.sum_cons, h0, zero_add, hrest]
      unfold selectedCount
      rw [List.filter_cons]
      norm_num [h0]
    · rw [List.map_cons, List.sum_cons, h1, hrest]
      unfold selectedCount
      rw [List.filter_cons]
      simp [h1, add_comm]

/-! ### Claim C8: degrees match the required visit count -/

/-- C8: in any arc assignment satisfying the routing constraint system with
0/1 arc values, every non-depot node has, on every day, as many selected
outgoing arcs as selected incoming arcs, and that common number equals the
node's required visit count `din[i,n]`. -/
theorem c8_degrees_equal_requirement (nodes days : List ℕ)
    (x : ℕ → ℕ → ℕ → ℚ) (din : ℕ → ℕ → ℚ)
    (hbin : ∀ i j n, x i j n = 0 ∨ x i j n = 1)
    (hc : routingConstraintsHold nodes days x din)
    (i : ℕ) (hi : i ∈ nodes) (hdepot : i ≠ 0) (n : ℕ) (hn : n ∈ days) :
    selectedCount nodes (fun j => x i j n) =
      selectedCount nodes (fun j => x j i n) ∧
    (selectedCount nodes (fun j => x i j n) : ℚ) = din i n := by
  obtain ⟨hflow, hvisit⟩ := hc n hn i hi
  have hout := sum_eq_selectedCount nodes (fun j => x i j n) fun j _ => hbin i j n
  have hin := sum_eq_selectedCount nodes (fun j => x j i n) fun j _ => hbin j i n
  refine ⟨?_, by rw [← hout, hvisit]⟩
  have hcast : (selectedCount nodes (fun j => x i j n) : ℚ) =
      selectedCount nodes (fun j => x j i n) := by
    rw [← hout, ← hin, hflow]
  exact_mod_cast hcast

/-- Concrete two-node one-day arc assignment witnessing C8: the tour
depot → 1 → depot. -/
def c8x : ℕ → ℕ → ℕ → ℚ :=
  fun i j _ => if (i = 0 ∧ j = 1) ∨ (i = 1 ∧ j = 0) then 1 else 0

/-- C8 witness: the theorem applied to the concrete assignment. -/
theorem c8_witness :
    selectedCount [0, 1] (fun j => c8x 1 j 0) =
      selectedCount [0, 1] (fun j => c8x j 1 0) ∧
    (selectedCount [0, 1] (fun j => c8x 1 j 0) : ℚ) = (fun _ _ => (1 : ℚ)) 1 0 :=
  c8_degrees_equal_requirement [0, 1] [0] c8x (fun _ _ => 1)
    (by intro i j n; unfold c8x; split_ifs <;> simp)
    (by
      intro n hn i hi
      simp only [List.mem_singleton] at hn
      subst hn
      rcases List.mem_cons.1 hi with hi | hi
      · subst hi; norm_num [c8x]
      · simp only [List.mem_singleton] at hi
        subst hi; norm_num [c8x])
    1 (by norm_num) (by norm_num) 0 (by norm_num)

/-! ### Claim C10: depot-incident arcs have zero distance -/

/-- `TruckRoutes._build_dist` (planrout.py lines 94-115): depot-incident
entries are 0; other entries read the global distance matrix through the
station-id indirection, plus the same-type penalty. -/
def build_dist (distGlobal : ℕ → ℕ → ℚ) (globalIdx : ℕ → ℕ)
    (typeOf : ℕ → ℕ) (penaltySame : ℚ) (i j : ℕ) : ℚ :=
  if i = 0 ∨ j = 0 then 0
  else
    let d := distGlobal (globalIdx i) (globalIdx j)
    if typeOf i = typeOf j then d + penaltySame else d

/-- The total-distance objective term of `_build_r_objectives` (planrout.py
lines 244-246), restricted to a list of arcs `(i, j, n)`. -/
def distObjective (x : ℕ × ℕ × ℕ → ℚ) (dist : ℕ → ℕ → ℚ)
    (arcs : List (ℕ × ℕ × ℕ)) : ℚ :=
  (arcs.map fun a => x a * dist a.1 a.2.1).sum

/-- C10: every arc incident to the depot (node 0) has distance exactly 0 in
the matrix built by `_build_dist`, and consequently any collection of
depot-incident arcs contributes 0 to the distance objective, whatever values
the arc variables take. -/
theorem c10_depot_distance_zero (distGlobal : ℕ → ℕ → ℚ) (globalIdx : ℕ → ℕ)
    (typeOf : ℕ → ℕ) (penaltySame : ℚ) :
    (∀ i j, i = 0 ∨ j = 0 →
      build_dist distGlobal globalIdx typeOf penaltySame i j = 0) ∧
    (∀ (x : ℕ × ℕ × ℕ → ℚ) (arcs : List (ℕ × ℕ × ℕ)),
      (∀ a ∈ arcs, a.1 = 0 ∨ a.2.1 = 0) →
      distObjective x (build_dist distGlobal globalIdx typeOf penaltySame)
        arcs = 0) := by
  have hzero : ∀ i j, i = 0 ∨ j = 0 →
      build_dist distGlobal globalIdx typeOf penaltySame i j = 0 := by
    intro i j h
    unfold build_dist
    rw [if_pos h]
  refine ⟨hzero, ?_⟩
  intro x arcs harcs
  unfold distObjective
  apply List.sum_eq_zero
  intro v hv
  obtain ⟨a, ha, hav⟩ := List.mem_map.1 hv
  rw [← hav, hzero a.1 a.2.1 (harcs a ha), mul_zero]

/-- C10 witness: the theorem applied to a concrete distance configuration and
a concrete list of depot legs. -/
theorem c10_witness :
    build_dist (fun _ _ => 7) id (fun _ => 1) 5 0 3 = 0 ∧
    distObjective (fun _ => 1) (build_dist (fun _ _ => 7) id (fun _ => 1) 5)
      [(0, 1, 0), (1, 0, 0)] = 0 :=
  ⟨(c10_depot_distance_zero (fun _ _ => 7) id (fun _ => 1) 5).1 0 3 (Or.inl rfl),
   (c10_depot_distance_zero (fun _ _ => 7) id (fun _ => 1) 5).2 (fun _ => 1)
     [(0, 1, 0), (1, 0, 0)] (by decide)⟩

/-! ## Optimisation driver (src/rebalancing/optimization.py) -/

/-- An exception escaping the Weekplan/TruckRoutes construction-and-solve
block of `run_optimization`: a `gp.GurobiError` carrying its message, or an
exception of any other class. -/
inductive SolverFailure where
  | gurobiError (msg : String)
  | otherError (className : String)
deriving DecidableEq

/-- What `run_optimization` does with an escaping exception. -/
inductive DriverAction where
  | fallbackMiniSample
  | raiseUnchanged (e : SolverFailure)
deriving DecidableEq

/-- Python `needle in hay` on strings (as lists of characters): some suffix of
the haystack starts with the needle. -/
def pyInStr (needle : List Char) : List Char → Bool
  | [] => needle.isEmpty
  | c :: rest => List.isPrefixOf needle (c :: rest) || pyInStr needle rest

/-- The size-exceeded test of optimization.py line 111: the Gurobi message
mentions the size-limited license or a too-large model. -/
def indicatesSizeExceeded (msg : String) : Bool :=
  pyInStr "size-limited license".toList msg.toList ||
  pyInStr "Model too large".toList msg.toList

/-- The exception dispatch of `run_optimization` (optimization.py lines
110-128): only a `GurobiError` whose message indicates the size limit
triggers the mini-sample fallback (reload the frontier data with
`mini_sample=True`, rebuild `Weekplan` and `TruckRoutes`, re-solve); any
other `GurobiError` is re-raised by `raise e`, and exceptions of other
classes are not caught at all. -/
def runOptimizationDispatch : SolverFailure → DriverAction
  | .gurobiError msg =>
      if indicatesSizeExceeded msg then .fallbackMiniSample
      else .raiseUnchanged (.gurobiError msg)
  | .otherError c => .raiseUnchanged (.otherError c)

/-- The station sampling of `load_optimization_data` in mini-sample mode
(optimization.py lines 28-32): at most 5 stations of each sign are kept. -/
def miniSampleCounts (nVide nPlein : ℕ) : ℕ × ℕ :=
  (min 5 nVide, min 5 nPlein)

/-! ### Claim C9: only the size-exceeded condition triggers the fallback -/

/-- C9: the mini-sample fallback is taken exactly for a Gurobi error whose
message indicates the instance exceeds the solvable size; every other
escaping exception is re-raised unchanged; and the fallback re-runs the plan
on a reduced station sample of at most 5 stations per sign. -/
theorem c9_fallback_only_on_size (e : SolverFailure) :
    (runOptimizationDispatch e = .fallbackMiniSample ↔
      ∃ msg, e = .gurobiError msg ∧ indicatesSizeExceeded msg = true) ∧
    (runOptimizationDispatch e ≠ .fallbackMiniSample →
      runOptimizationDispatch e = .raiseUnchanged e) ∧
    (∀ nVide nPlein : ℕ,
      (miniSampleCounts nVide nPlein).1 ≤ min 5 nVide ∧
      (miniSampleCounts nVide nPlein).2 ≤ min 5 nPlein) := by
  refine ⟨?_, ?_, by intro a b; exact ⟨le_refl _, le_refl _⟩⟩
  · constructor
    · intro h
      match e with
      | .gurobiError msg =>
        refine ⟨msg, rfl, ?_⟩
        by_contra hsz
        simp only [runOptimizationDispatch, Bool.not_eq_true] at h hsz
        rw [if_neg (by simp [hsz])] at h
        exact DriverAction.noConfusion h
      | .otherError c => exact DriverAction.noConfusion h
    · rintro ⟨msg, rfl, hsz⟩
      simp [runOptimizationDispatch, hsz]
  · intro h
    match e with
    | .gurobiError msg =>
      simp only [runOptimizationDispatch] at h ⊢
      split_ifs with hsz
      · simp [hsz] at h
      · rfl
    | .otherError c => rfl

/-- C9 witness: the dispatch theorem applied at concrete exceptions. -/
theorem c9_witness :
    runOptimizationDispatch (.gurobiError "Model too large") =
      .fallbackMiniSample ∧
    runOptimizationDispatch (.otherError "FileNotFoundError") =
      .raiseUnchanged (.otherError "FileNotFoundError") :=
  ⟨((c9_fallback_only_on_size (.gurobiError "Model too large")).1).2
      ⟨"Model too large", rfl, by decide⟩,
   (c9_fallback_only_on_size (.otherError "FileNotFoundError")).2.1
      (by decide)⟩

end BikeRebalancing
